import Mathlib

/-!
Verification development for the BankInsight (finanseer) categorization core.

The Python sources are shallowly embedded:
Python `str` values are Lean `String` (lists of unicode characters),
`Optional[str]` is `Option String`, `Decimal` amounts quantized to two
places are integer cents, SQL rows are Lean structures and the record
store is a structure of lists.  Fallible commits are modelled by an
explicit `commitOk` flag: the source catches the exception, rolls the
session back and logs, so the caller always receives a value.
-/

namespace Finanseer

/-! ## Character-level helpers (text_processing.py)

Characters are compared through their unicode code points (`Char.toNat`),
so all side conditions become plain arithmetic. -/

/-- Code points matched by the Python regex class `\s` and stripped by
`str.strip`: space, tab, newline, carriage return, vertical tab, form feed. -/
def pySpace (c : Char) : Bool :=
  decide (c.toNat = 32 ∨ c.toNat = 9 ∨ c.toNat = 10 ∨ c.toNat = 13 ∨
    c.toNat = 11 ∨ c.toNat = 12)

/-- Lowercase ASCII letter or ASCII digit: the characters the regex class
`[a-z0-9]` of `text_processing.normalize_description` keeps. -/
def isAlnumLower (c : Char) : Bool :=
  decide ((97 ≤ c.toNat ∧ c.toNat ≤ 122) ∨ (48 ≤ c.toNat ∧ c.toNat ≤ 57))

/-- Lowercasing of the common accented uppercase letters appearing in Dutch
bank exports.  `str.lower` covers the whole unicode table; only the rows that
can reach the normalizer matter here, and the function is exact on ASCII. -/
def lowerAccentTable (c : Char) : Char :=
  match c with
  | 'É' => 'é' | 'È' => 'è' | 'Ê' => 'ê' | 'Ë' => 'ë'
  | 'Á' => 'á' | 'À' => 'à' | 'Ä' => 'ä' | 'Â' => 'â'
  | 'Ó' => 'ó' | 'Ö' => 'ö' | 'Ú' => 'ú' | 'Ü' => 'ü'
  | 'Í' => 'í' | 'Ï' => 'ï' | 'Ç' => 'ç' | 'Ñ' => 'ñ'
  | _ => c

/-- Model of Python `str.lower` applied characterwise: exact on ASCII
(uppercase shifted by 32), accented letters through `lowerAccentTable`. -/
def pyLowerChar (c : Char) : Char :=
  if 65 ≤ c.toNat ∧ c.toNat ≤ 90 then Char.ofNat (c.toNat + 32)
  else if c.toNat < 128 then c
  else lowerAccentTable c

/-- Model of `str.lower` on a whole string. -/
def pyLower (s : String) : String :=
  String.mk (s.data.map pyLowerChar)

/-- Fold-to-ASCII table of `unidecode` for the common Latin accents; the
library maps characters missing from its tables to the empty string. -/
def accentFold (c : Char) : List Char :=
  match c with
  | 'é' => ['e'] | 'è' => ['e'] | 'ê' => ['e'] | 'ë' => ['e']
  | 'á' => ['a'] | 'à' => ['a'] | 'ä' => ['a'] | 'â' => ['a']
  | 'ó' => ['o'] | 'ö' => ['o'] | 'ú' => ['u'] | 'ü' => ['u']
  | 'í' => ['i'] | 'ï' => ['i'] | 'ç' => ['c'] | 'ñ' => ['n']
  | _ => []

/-- Transliteration of one character by `unidecode.unidecode`: the identity
on ASCII (exact), `accentFold` beyond. -/
def unidecodeChar (c : Char) : List Char :=
  if c.toNat < 128 then [c] else accentFold c

/-- `unidecode` over a list of characters. -/
def unidecodeList : List Char → List Char
  | [] => []
  | c :: rest => unidecodeChar c ++ unidecodeList rest

/-- Step 3 of the normalizer: `re.sub(r'[^a-z0-9\s]', ' ', text)` acting on
one character. -/
def cleanChar (c : Char) : Char :=
  if isAlnumLower c || pySpace c then c else ' '

/-- Helper for Python `str.split()`: cut the list at every separator
character, accumulating the current chunk in reverse.  Empty chunks are kept
here and dropped by `pyWords`, exactly as `str.split` with no argument drops
them. -/
def pySplitGo (p : Char → Bool) : List Char → List Char → List (List Char)
  | [], acc => [acc.reverse]
  | c :: rest, acc =>
    if p c then acc.reverse :: pySplitGo p rest []
    else pySplitGo p rest (c :: acc)

/-- Model of Python `text.split()`: split on whitespace runs, no empty
tokens. -/
def pyWords (l : List Char) : List (List Char) :=
  (pySplitGo pySpace l []).filter (fun t => !t.isEmpty)

/-- The stopword set of `text_processing.py` (the source set literal lists
`"eo"` twice; a Python set keeps one copy). -/
def STOPWORDS : List String :=
  ["abn", "amro", "ing", "rabo", "rabobank", "knab", "bunq",
   "betaling", "betaalautomaat", "sepa", "ideal", "europe", "bv",
   "via", "trn", "iban", "bic", "pasnr", "datum", "tijd", "kenmerk",
   "omschrijving", "machtigingskenmerk", "incassant", "id", "eo", "en",
   "rabomobiel", "internetbankieren", "mobiel", "bankieren",
   "overboeking", "rekening", "naar", "van", "bij",
   "stichting", "payments", "online", "payment"]

/-- Steps 1 to 4 of `normalize_description`, producing the surviving tokens:
lowercase, transliterate, replace characters outside `[a-z0-9\s]` by a
space, split on whitespace, drop stopwords. -/
def normTokens (l : List Char) : List (List Char) :=
  (pyWords ((unidecodeList (l.map pyLowerChar)).map cleanChar)).filter
    (fun t => !(STOPWORDS.contains (String.mk t)))

/-- Steps 4 and 5 on the character list: join the tokens with single spaces,
then `re.sub(r'\s+', ' ', text).strip()`, which rejoins the whitespace-run
tokenization with single spaces. -/
def normCore (l : List Char) : List Char :=
  List.intercalate [' '] (pyWords (List.intercalate [' '] (normTokens l)))

/-- `text_processing.normalize_description`: the guard `if not text` of the
source returns the empty string for empty input, then the five pipeline
steps run. -/
def normalize_description (text : String) : String :=
  if text = "" then "" else String.mk (normCore text.data)

/-! ## Normalizer lemmas, leading to idempotence (claim C7) -/

theorem pySplitGo_nil (p : Char → Bool) (acc : List Char) :
    pySplitGo p [] acc = [acc.reverse] := rfl

theorem pySplitGo_cons (p : Char → Bool) (c : Char) (rest acc : List Char) :
    pySplitGo p (c :: rest) acc =
      if p c then acc.reverse :: pySplitGo p rest [] else pySplitGo p rest (c :: acc) := rfl

/-- Every character of every chunk produced by the splitter fails the
separator predicate and comes from the input or the accumulator. -/
theorem pySplitGo_chars {p : Char → Bool} :
    ∀ (l acc : List Char), (∀ a ∈ acc, p a = false) →
      ∀ w ∈ pySplitGo p l acc, ∀ c ∈ w, p c = false ∧ (c ∈ l ∨ c ∈ acc) := by
  intro l
  induction l with
  | nil =>
    intro acc hacc w hw c hc
    rw [pySplitGo_nil] at hw
    simp only [List.mem_singleton] at hw
    subst hw
    rw [List.mem_reverse] at hc
    exact ⟨hacc c hc, Or.inr hc⟩
  | cons a rest ih =>
    intro acc hacc w hw c hc
    rw [pySplitGo_cons] at hw
    by_cases hpa : p a = true
    · rw [if_pos hpa] at hw
      rcases List.mem_cons.mp hw with h | h
      · subst h
        rw [List.mem_reverse] at hc
        exact ⟨hacc c hc, Or.inr hc⟩
      · have := ih [] (by simp) w h c hc
        refine ⟨this.1, ?_⟩
        rcases this.2 with h2 | h2
        · exact Or.inl (List.mem_cons_of_mem _ h2)
        · simp at h2
    · rw [if_neg hpa] at hw
      have hacc2 : ∀ x ∈ a :: acc, p x = false := by
        intro x hx
        rcases List.mem_cons.mp hx with h | h
        · subst h; exact Bool.eq_false_iff.mpr hpa
        · exact hacc x h
      have := ih (a :: acc) hacc2 w hw c hc
      refine ⟨this.1, ?_⟩
      rcases this.2 with h2 | h2
      · exact Or.inl (List.mem_cons_of_mem _ h2)
      · rcases List.mem_cons.mp h2 with h3 | h3
        · subst h3; exact Or.inl (List.mem_cons_self _ _)
        · exact Or.inr h3

/-- Consuming a separator-free block just moves it into the accumulator. -/
theorem pySplitGo_append {p : Char → Bool} :
    ∀ (t l acc : List Char), (∀ c ∈ t, p c = false) →
      pySplitGo p (t ++ l) acc = pySplitGo p l (t.reverse ++ acc) := by
  intro t
  induction t with
  | nil => intro l acc _; simp
  | cons a t ih =>
    intro l acc ht
    have ha : p a = false := ht a (List.mem_cons_self _ _)
    rw [List.cons_append, pySplitGo_cons, if_neg (by simp [ha]),
      ih l (a :: acc) (fun c hc => ht c (List.mem_cons_of_mem _ hc))]
    simp

/-- A separator-free input yields a single chunk. -/
theorem pySplitGo_token {p : Char → Bool} (t acc : List Char)
    (ht : ∀ c ∈ t, p c = false) :
    pySplitGo p t acc = [acc.reverse ++ t] := by
  have := pySplitGo_append t [] acc ht
  rw [List.append_nil] at this
  rw [this, pySplitGo_nil]
  simp

theorem intercalate_cons₂ (t u : List Char) (rest : List (List Char)) :
    List.intercalate [' '] (t :: u :: rest) = t ++ ' ' :: List.intercalate [' '] (u :: rest) := by
  simp [List.intercalate, List.intersperse_cons₂]

/-- Splitting the single-space join of nonempty separator-free tokens
recovers exactly the tokens. -/
theorem pyWords_intercalate :
    ∀ (T : List (List Char)),
      (∀ t ∈ T, t ≠ [] ∧ ∀ c ∈ t, pySpace c = false) →
      pyWords (List.intercalate [' '] T) = T := by
  intro T
  induction T with
  | nil => intro _; simp [List.intercalate, pyWords, pySplitGo, List.filter]
  | cons t T ih =>
    intro h
    have ht := h t (List.mem_cons_self _ _)
    cases T with
    | nil =>
      have h1 : List.intercalate [' '] [t] = t := by simp [List.intercalate]
      rw [h1]
      unfold pyWords
      rw [pySplitGo_token t [] ht.2]
      have hne : t.isEmpty = false := by
        simp [List.isEmpty_iff, ht.1]
      rw [List.filter_cons, if_pos (by simp [hne])]
      rfl
    | cons u rest =>
      rw [intercalate_cons₂]
      unfold pyWords
      rw [pySplitGo_append t (' ' :: List.intercalate [' '] (u :: rest)) [] ht.2,
        pySplitGo_cons, if_pos (by decide)]
      simp only [List.append_nil, List.reverse_reverse]
      rw [List.filter_cons, if_pos (by simp [List.isEmpty_iff, ht.1])]
      have := ih (fun x hx => h x (List.mem_cons_of_mem _ hx))
      unfold pyWords at this
      rw [this]

/-- Characters of the single-space join of all-alphanumeric tokens are
alphanumeric or the space. -/
theorem intercalate_space_chars :
    ∀ (T : List (List Char)),
      (∀ t ∈ T, ∀ c ∈ t, isAlnumLower c = true) →
      ∀ c ∈ List.intercalate [' '] T, isAlnumLower c = true ∨ c = ' ' := by
  intro T
  induction T with
  | nil => intro _ c hc; simp [List.intercalate] at hc
  | cons t T ih =>
    intro h c hc
    cases T with
    | nil =>
      rw [show List.intercalate [' '] [t] = t by simp [List.intercalate]] at hc
      exact Or.inl (h t (List.mem_cons_self _ _) c hc)
    | cons u rest =>
      rw [intercalate_cons₂] at hc
      rcases List.mem_append.mp hc with h1 | h1
      · exact Or.inl (h t (List.mem_cons_self _ _) c h1)
      · rcases List.mem_cons.mp h1 with h2 | h2
        · exact Or.inr h2
        · exact ih (fun x hx => h x (List.mem_cons_of_mem _ hx)) c h2

theorem isAlnumLower_lt_128 {c : Char} (h : isAlnumLower c = true) : c.toNat < 128 := by
  simp only [isAlnumLower, decide_eq_true_eq] at h
  omega

theorem isAlnumLower_not_space {c : Char} (h : isAlnumLower c = true) : pySpace c = false := by
  simp only [isAlnumLower, decide_eq_true_eq] at h
  simp only [pySpace, decide_eq_false_iff_not]
  omega

theorem pyLowerChar_id {c : Char} (h : isAlnumLower c = true ∨ c = ' ') :
    pyLowerChar c = c := by
  have hlt : c.toNat < 128 ∧ ¬ (65 ≤ c.toNat ∧ c.toNat ≤ 90) := by
    rcases h with h | h
    · simp only [isAlnumLower, decide_eq_true_eq] at h
      omega
    · subst h; refine ⟨by decide, by decide⟩
  rw [pyLowerChar, if_neg hlt.2, if_pos hlt.1]

theorem unidecodeChar_id {c : Char} (h : c.toNat < 128) : unidecodeChar c = [c] := by
  rw [unidecodeChar, if_pos h]

theorem cleanChar_id {c : Char} (h : isAlnumLower c = true ∨ c = ' ') :
    cleanChar c = c := by
  rw [cleanChar, if_pos]
  rcases h with h | h
  · simp [h]
  · subst h; decide

theorem cleanChar_range (c : Char) :
    isAlnumLower (cleanChar c) = true ∨ pySpace (cleanChar c) = true := by
  rw [cleanChar]
  split
  · rename_i h
    rcases Bool.or_eq_true_iff.mp h with h | h
    · exact Or.inl h
    · exact Or.inr h
  · right; decide

theorem map_id_of_forall {f : Char → Char} :
    ∀ {l : List Char}, (∀ c ∈ l, f c = c) → l.map f = l := by
  intro l
  induction l with
  | nil => intro _; rfl
  | cons a l ih =>
    intro h
    rw [List.map_cons, h a (List.mem_cons_self _ _),
      ih (fun c hc => h c (List.mem_cons_of_mem _ hc))]

theorem unidecodeList_id :
    ∀ {l : List Char}, (∀ c ∈ l, unidecodeChar c = [c]) → unidecodeList l = l := by
  intro l
  induction l with
  | nil => intro _; rfl
  | cons a l ih =>
    intro h
    rw [unidecodeList, h a (List.mem_cons_self _ _),
      ih (fun c hc => h c (List.mem_cons_of_mem _ hc))]
    rfl

/-- Every surviving token of the normalizer pipeline is nonempty and made of
lowercase ASCII letters and digits only. -/
theorem normTokens_shape {l : List Char} :
    ∀ t ∈ normTokens l, t ≠ [] ∧ ∀ c ∈ t, isAlnumLower c = true := by
  intro t ht
  unfold normTokens at ht
  have ht1 := List.mem_filter.mp ht
  unfold pyWords at ht1
  have ht2 := List.mem_filter.mp ht1.1
  refine ⟨by simpa [List.isEmpty_iff] using ht2.2, ?_⟩
  intro c hc
  have h3 := pySplitGo_chars _ [] (by simp) t ht2.1 c hc
  rcases h3.2 with h4 | h4
  · rcases List.mem_map.mp h4 with ⟨c0, _, hc0⟩
    rcases cleanChar_range c0 with h5 | h5
    · rwa [hc0] at h5
    · rw [hc0] at h5
      rw [h3.1] at h5
      cases h5
  · simp at h4

/-- Tokenizing the single-space join of clean tokens returns them back. -/
theorem normTokens_of_clean (T : List (List Char))
    (h1 : ∀ t ∈ T, t ≠ [] ∧ ∀ c ∈ t, isAlnumLower c = true)
    (h2 : ∀ t ∈ T, (!STOPWORDS.contains (String.mk t)) = true) :
    normTokens (List.intercalate [' '] T) = T := by
  have hchars : ∀ c ∈ List.intercalate [' '] T, isAlnumLower c = true ∨ c = ' ' :=
    intercalate_space_chars _ (fun t ht => (h1 t ht).2)
  have hid : ∀ c ∈ List.intercalate [' '] T, pyLowerChar c = c :=
    fun c hc => pyLowerChar_id (hchars c hc)
  unfold normTokens
  rw [map_id_of_forall hid]
  rw [unidecodeList_id (fun c hc => unidecodeChar_id (by
    rcases hchars c hc with h | h
    · exact isAlnumLower_lt_128 h
    · subst h; decide))]
  rw [map_id_of_forall (fun c hc => cleanChar_id (hchars c hc))]
  rw [pyWords_intercalate T (fun t ht =>
    ⟨(h1 t ht).1, fun c hc => isAlnumLower_not_space ((h1 t ht).2 c hc)⟩)]
  exact List.filter_eq_self.mpr h2

/-- The token extraction is stable on its own single-space join. -/
theorem normTokens_stable (l : List Char) :
    normTokens (List.intercalate [' '] (normTokens l)) = normTokens l :=
  normTokens_of_clean (normTokens l) normTokens_shape
    (fun t ht => by
      unfold normTokens at ht
      exact (List.mem_filter.mp ht).2)

/-- The last pipeline step (collapse and strip) leaves the single-space join
of the tokens unchanged. -/
theorem normCore_eq (l : List Char) :
    normCore l = List.intercalate [' '] (normTokens l) := by
  unfold normCore
  rw [pyWords_intercalate (normTokens l) (fun t ht =>
    ⟨(normTokens_shape t ht).1,
     fun c hc => isAlnumLower_not_space ((normTokens_shape t ht).2 c hc)⟩)]

/-- C7: `normalize_description` is idempotent: normalizing a second time
changes nothing, for every input string. -/
theorem normalize_description_idem (x : String) :
    normalize_description (normalize_description x) = normalize_description x := by
  by_cases hx : x = ""
  · subst hx
    rfl
  · have h1 : normalize_description x = String.mk (normCore x.data) := by
      rw [normalize_description, if_neg hx]
    rw [h1]
    by_cases ho : String.mk (normCore x.data) = ""
    · rw [ho]
      rfl
    · rw [normalize_description, if_neg ho]
      apply congrArg String.mk
      show normCore (normCore x.data) = normCore x.data
      rw [normCore_eq (normCore x.data), normCore_eq x.data, normTokens_stable]

/-! ## Identity hasher (schemas.py, Transaction.generate_id)

Python dates are `Pydate` records rendered by `isoformat`; `Decimal`
amounts quantized to two places are integer cents (the schema validator
and the stated data-model invariant keep amounts non-negative) rendered
exactly as `str` renders the quantized `Decimal`; SHA-256 is implemented
over natural-number words reduced modulo `2 ^ 32`. -/

/-- Left strip of Python `str.strip`. -/
def lstrip (l : List Char) : List Char := l.dropWhile pySpace

/-- Right strip of Python `str.strip`. -/
def rstrip (l : List Char) : List Char := (l.reverse.dropWhile pySpace).reverse

/-- Python `str.strip()` with no argument: whitespace removed from both
ends. -/
def pyStrip (s : String) : String := String.mk (rstrip (lstrip s.data))

/-- Python `x or y` on an optional string: `None` and the empty string are
falsy. -/
def pyOr (x : Option String) (y : String) : String :=
  match x with
  | none => y
  | some s => if s = "" then y else s

/-- A Python `datetime.date`; `date` guarantees `1 <= year <= 9999`. -/
structure Pydate where
  year : Nat
  month : Nat
  day : Nat
deriving DecidableEq

/-- Two-digit zero-padded decimal rendering. -/
def pad2 (n : Nat) : List Char :=
  [Nat.digitChar (n / 10 % 10), Nat.digitChar (n % 10)]

/-- Four-digit zero-padded decimal rendering. -/
def pad4 (n : Nat) : List Char :=
  [Nat.digitChar (n / 1000 % 10), Nat.digitChar (n / 100 % 10),
   Nat.digitChar (n / 10 % 10), Nat.digitChar (n % 10)]

/-- `date.isoformat()`: the ten-character `YYYY-MM-DD` rendering. -/
def isoformat (d : Pydate) : String :=
  String.mk (pad4 d.year ++ '-' :: pad2 d.month ++ '-' :: pad2 d.day)

/-- Decimal digits of a natural number, most significant first, with a fuel
argument so that the definition is structural and kernel-reducible. -/
def natDigitsGo : Nat → Nat → List Char
  | 0, _ => []
  | fuel + 1, n =>
    if n < 10 then [Nat.digitChar n]
    else natDigitsGo fuel (n / 10) ++ [Nat.digitChar (n % 10)]

/-- Decimal rendering of a natural number, as `str` renders the integer part
of a `Decimal`. -/
def natRepr (n : Nat) : List Char := natDigitsGo (n + 1) n

/-- `str(amount.quantize(Decimal("0.01")))` for a non-negative amount of
`cents` hundredths: integer part, a dot, exactly two fraction digits. -/
def amountStr (cents : Nat) : String :=
  String.mk (natRepr (cents / 100) ++ '.' :: pad2 (cents % 100))

/-- The description component of the hashed string:
`description.strip() if description else ""`. -/
def descPart (d : Option String) : String :=
  match d with
  | none => ""
  | some s => if s = "" then "" else pyStrip s

/-- `counterparty_iban or counterparty_name or ""` of the source. -/
def counterpartyId (iban name : Option String) : String :=
  pyOr iban (pyOr name "")

/-- The `data_to_hash` string of `Transaction.generate_id`: ISO date,
quantized amount, stripped counterparty identity and stripped description
concatenated with no separators. -/
def data_to_hash (transaction_date : Pydate) (amount : Nat)
    (counterparty_iban counterparty_name description : Option String) : String :=
  isoformat transaction_date ++ amountStr amount ++
    pyStrip (counterpartyId counterparty_iban counterparty_name) ++
    descPart description

/-- UTF-8 bytes of one character. -/
def utf8Char (c : Char) : List Nat :=
  if c.toNat < 128 then [c.toNat]
  else if c.toNat < 2048 then [192 + c.toNat / 64, 128 + c.toNat % 64]
  else if c.toNat < 65536 then
    [224 + c.toNat / 4096, 128 + c.toNat / 64 % 64, 128 + c.toNat % 64]
  else
    [240 + c.toNat / 262144, 128 + c.toNat / 4096 % 64,
     128 + c.toNat / 64 % 64, 128 + c.toNat % 64]

/-- UTF-8 bytes of a character list. -/
def utf8Bytes : List Char → List Nat
  | [] => []
  | c :: rest => utf8Char c ++ utf8Bytes rest

/-- `s.encode("utf-8")`. -/
def utf8Encode (s : String) : List Nat := utf8Bytes s.data

/-! ### SHA-256 over natural numbers -/

/-- The 32-bit modulus. -/
def M32 : Nat := 4294967296

/-- Right rotation within 32 bits, for inputs below `M32`. -/
def rotr (n x : Nat) : Nat := ((x >>> n) ||| (x <<< (32 - n))) % M32

/-- Bitwise complement within 32 bits, for inputs below `M32`. -/
def bnot32 (x : Nat) : Nat := 4294967295 - x

def bigSigma0 (x : Nat) : Nat := rotr 2 x ^^^ rotr 13 x ^^^ rotr 22 x

def bigSigma1 (x : Nat) : Nat := rotr 6 x ^^^ rotr 11 x ^^^ rotr 25 x

def smallSigma0 (x : Nat) : Nat := rotr 7 x ^^^ rotr 18 x ^^^ (x >>> 3)

def smallSigma1 (x : Nat) : Nat := rotr 17 x ^^^ rotr 19 x ^^^ (x >>> 10)

def chF (e f g : Nat) : Nat := (e &&& f) ^^^ (bnot32 e &&& g)

def majF (a b c : Nat) : Nat := (a &&& b) ^^^ (a &&& c) ^^^ (b &&& c)

/-- The 64 SHA-256 round constants (decimal spellings of the standard
fractional cube-root words). -/
def K256 : List Nat :=
  [1116352408, 1899447441, 3049323471, 3921009573, 961987163,
   1508970993, 2453635748, 2870763221, 3624381080, 310598401,
   607225278, 1426881987, 1925078388, 2162078206, 2614888103,
   3248222580, 3835390401, 4022224774, 264347078, 604807628,
   770255983, 1249150122, 1555081692, 1996064986, 2554220882,
   2821834349, 2952996808, 3210313671, 3336571891, 3584528711,
   113926993, 338241895, 666307205, 773529912, 1294757372,
   1396182291, 1695183700, 1986661051, 2177026350, 2456956037,
   2730485921, 2820302411, 3259730800, 3345764771, 3516065817,
   3600352804, 4094571909, 275423344, 430227734, 506948616,
   659060556, 883997877, 958139571, 1322822218, 1537002063,
   1747873779, 1955562222, 2024104815, 2227730452, 2361852424,
   2428436474, 2756734187, 3204031479, 3329325298]

/-- The SHA-256 initial state (decimal spellings of the standard fractional
square-root words). -/
def H256 : List Nat :=
  [1779033703, 3144134277, 1013904242, 2773480762, 1359893119,
   2600822924, 528734635, 1541459225]

/-- Eight-byte big-endian rendering of the bit length. -/
def be64 (n : Nat) : List Nat :=
  [(n >>> 56) &&& 255, (n >>> 48) &&& 255, (n >>> 40) &&& 255,
   (n >>> 32) &&& 255, (n >>> 24) &&& 255, (n >>> 16) &&& 255,
   (n >>> 8) &&& 255, n &&& 255]

/-- SHA-256 padding: a `0x80` byte, zeros to 56 mod 64, then the bit length. -/
def padMessage (msg : List Nat) : List Nat :=
  msg ++ 128 :: List.replicate ((64 - ((msg.length + 9) % 64)) % 64) 0 ++
    be64 (8 * msg.length)

/-- Big-endian 32-bit words from bytes. -/
def toWords : List Nat → List Nat
  | a :: b :: c :: d :: rest => (((a * 256 + b) * 256 + c) * 256 + d) :: toWords rest
  | _ => []

/-- Extend the 16 chunk words by `k` schedule words. -/
def schedExt : Nat → List Nat → List Nat
  | 0, w => w
  | k + 1, w =>
    let n := w.length
    schedExt k (w ++
      [(w.getD (n - 16) 0 + smallSigma0 (w.getD (n - 15) 0) +
        w.getD (n - 7) 0 + smallSigma1 (w.getD (n - 2) 0)) % M32])

/-- One SHA-256 round on the eight-word state. -/
def roundStep (st : List Nat) (kw : Nat × Nat) : List Nat :=
  match st with
  | [a, b, c, d, e, f, g, h] =>
    let t1 := (h + bigSigma1 e + chF e f g + kw.1 + kw.2) % M32
    let t2 := (bigSigma0 a + majF a b c) % M32
    [(t1 + t2) % M32, a, b, c, (d + t1) % M32, e, f, g]
  | _ => st

/-- Compress one sixteen-word chunk into the state. -/
def compress (st chunkWords : List Nat) : List Nat :=
  let out := (K256.zip (schedExt 48 chunkWords)).foldl roundStep st
  (st.zip out).map (fun p => (p.1 + p.2) % M32)

/-- Split the padded message into 64-byte chunks (fueled for kernel
reduction; the fuel is the message length, far more than needed). -/
def chunksGo : Nat → List Nat → List (List Nat)
  | 0, _ => []
  | fuel + 1, l => if l = [] then [] else l.take 64 :: chunksGo fuel (l.drop 64)

/-- SHA-256 state after absorbing the whole message. -/
def sha256Words (msg : List Nat) : List Nat :=
  (chunksGo (padMessage msg).length (padMessage msg)).foldl
    (fun st chunk => compress st (toWords chunk)) H256

/-- Eight lowercase hex digits of one 32-bit word. -/
def wordHex (x : Nat) : List Char :=
  [Nat.digitChar (x / 268435456 % 16), Nat.digitChar (x / 16777216 % 16),
   Nat.digitChar (x / 1048576 % 16), Nat.digitChar (x / 65536 % 16),
   Nat.digitChar (x / 4096 % 16), Nat.digitChar (x / 256 % 16),
   Nat.digitChar (x / 16 % 16), Nat.digitChar (x % 16)]

def wordsHex : List Nat → List Char
  | [] => []
  | x :: rest => wordHex x ++ wordsHex rest

/-- `hashlib.sha256(bytes).hexdigest()`. -/
def sha256hex (msg : List Nat) : String := String.mk (wordsHex (sha256Words msg))

/-- `Transaction.generate_id` of schemas.py: hash of the `data_to_hash`
string encoded as UTF-8. -/
def generate_id (transaction_date : Pydate) (amount : Nat)
    (counterparty_iban counterparty_name description : Option String) : String :=
  sha256hex (utf8Encode (data_to_hash transaction_date amount
    counterparty_iban counterparty_name description))

/-! ## Whitespace and strip lemmas, claims C5 and C6 -/

theorem dropWhile_append_all {p : Char → Bool} :
    ∀ (w l : List Char), (∀ c ∈ w, p c = true) →
      (w ++ l).dropWhile p = l.dropWhile p := by
  intro w
  induction w with
  | nil => intro l _; rfl
  | cons a w ih =>
    intro l hw
    rw [List.cons_append, List.dropWhile_cons,
      if_pos (hw a (List.mem_cons_self _ _)),
      ih l (fun c hc => hw c (List.mem_cons_of_mem _ hc))]

theorem dropWhile_all {p : Char → Bool} (w : List Char)
    (hw : ∀ c ∈ w, p c = true) : w.dropWhile p = [] := by
  have := dropWhile_append_all w [] hw
  simpa using this

/-- Strip of both ends, on character lists. -/
theorem stripL_pad (w1 l w2 : List Char)
    (h1 : ∀ c ∈ w1, pySpace c = true) (h2 : ∀ c ∈ w2, pySpace c = true) :
    rstrip (lstrip (w1 ++ l ++ w2)) = rstrip (lstrip l) := by
  rw [List.append_assoc, lstrip, dropWhile_append_all w1 (l ++ w2) h1]
  by_cases hl : (l.dropWhile pySpace).isEmpty = true
  · rw [List.isEmpty_iff] at hl
    rw [show (l ++ w2).dropWhile pySpace = w2.dropWhile pySpace by
      rw [List.dropWhile_append]; simp [hl]]
    rw [dropWhile_all w2 h2, lstrip, hl]
  · rw [show (l ++ w2).dropWhile pySpace = l.dropWhile pySpace ++ w2 by
      rw [List.dropWhile_append, if_neg hl]]
    rw [lstrip, rstrip, rstrip, List.reverse_append,
      dropWhile_append_all _ _ (by intro c hc; exact h2 c (List.mem_reverse.mp hc))]

theorem pyStrip_pad (w1 s w2 : String)
    (h1 : ∀ c ∈ w1.data, pySpace c = true) (h2 : ∀ c ∈ w2.data, pySpace c = true) :
    pyStrip (w1 ++ s ++ w2) = pyStrip s := by
  unfold pyStrip lstrip rstrip
  apply congrArg String.mk
  have hd : (w1 ++ s ++ w2).data = w1.data ++ s.data ++ w2.data := by
    rw [String.data_append, String.data_append]
  rw [hd]
  exact stripL_pad w1.data s.data w2.data h1 h2

theorem pyStrip_all_space (w : String) (h : ∀ c ∈ w.data, pySpace c = true) :
    pyStrip w = "" := by
  unfold pyStrip lstrip rstrip
  rw [dropWhile_all w.data h]
  rfl

theorem str_empty_iff (s : String) : s = "" ↔ s.data = [] := by
  rw [String.ext_iff]

theorem append_ne_empty (w s v : String) (hs : s ≠ "") : w ++ s ++ v ≠ "" := by
  intro h
  rw [str_empty_iff, String.data_append, String.data_append] at h
  rcases List.append_eq_nil.mp h with ⟨h1, _⟩
  rcases List.append_eq_nil.mp h1 with ⟨_, h3⟩
  exact hs ((str_empty_iff s).mpr h3)

/-- Whitespace padding of an optional string field: `None` stays `None`, a
string receives the given left and right padding. -/
def padOpt (w1 : String) (x : Option String) (w2 : String) : Option String :=
  x.map (fun s => w1 ++ s ++ w2)

theorem descPart_pad (w1 w2 : String) (x : Option String)
    (h1 : ∀ c ∈ w1.data, pySpace c = true) (h2 : ∀ c ∈ w2.data, pySpace c = true) :
    descPart (padOpt w1 x w2) = descPart x := by
  cases x with
  | none => rfl
  | some s =>
    show descPart (some (w1 ++ s ++ w2)) = descPart (some s)
    simp only [descPart]
    by_cases hs : s = ""
    · subst hs
      rw [if_pos rfl]
      by_cases hw : w1 ++ "" ++ w2 = ""
      · rw [if_pos hw]
      · rw [if_neg hw, pyStrip_pad w1 "" w2 h1 h2]
        rfl
    · rw [if_neg hs, if_neg (append_ne_empty w1 s w2 hs), pyStrip_pad w1 s w2 h1 h2]

theorem counterparty_pad (w1 w2 w3 w4 : String) (iban name : Option String)
    (h1 : ∀ c ∈ w1.data, pySpace c = true) (h2 : ∀ c ∈ w2.data, pySpace c = true)
    (h3 : ∀ c ∈ w3.data, pySpace c = true) (h4 : ∀ c ∈ w4.data, pySpace c = true)
    (hiban : iban ≠ some "") :
    pyStrip (counterpartyId (padOpt w1 iban w2) (padOpt w3 name w4)) =
      pyStrip (counterpartyId iban name) := by
  cases iban with
  | some s =>
    have hs : s ≠ "" := fun h => hiban (by rw [h])
    show pyStrip (counterpartyId (some (w1 ++ s ++ w2)) _) = _
    simp only [counterpartyId, pyOr]
    rw [if_neg (append_ne_empty w1 s w2 hs), if_neg hs]
    exact pyStrip_pad w1 s w2 h1 h2
  | none =>
    cases name with
    | none => rfl
    | some s =>
      show pyStrip (counterpartyId none (some (w3 ++ s ++ w4))) =
        pyStrip (counterpartyId none (some s))
      simp only [counterpartyId, pyOr]
      by_cases hs : s = ""
      · subst hs
        rw [if_pos rfl]
        by_cases hw : w3 ++ "" ++ w4 = ""
        · rw [if_pos hw]
        · rw [if_neg hw, pyStrip_pad w3 "" w4 h3 h4]
      · rw [if_neg hs, if_neg (append_ne_empty w3 s w4 hs)]
        exact pyStrip_pad w3 s w4 h3 h4

/-- C5, amended: `generate_id` is a pure deterministic function, and
whitespace padding of the string fields never changes the digest, with one
exception forced by the source: a present-but-empty IBAN (`Some ""`) is
falsy before padding and truthy after, so padding it can override a present
counterparty name.  Hence the hypothesis `iban ≠ some ""`. -/
theorem generate_id_det_pad (d : Pydate) (amount : Nat)
    (iban name desc : Option String) (w1 w2 w3 w4 w5 w6 : String)
    (h1 : ∀ c ∈ w1.data, pySpace c = true) (h2 : ∀ c ∈ w2.data, pySpace c = true)
    (h3 : ∀ c ∈ w3.data, pySpace c = true) (h4 : ∀ c ∈ w4.data, pySpace c = true)
    (h5 : ∀ c ∈ w5.data, pySpace c = true) (h6 : ∀ c ∈ w6.data, pySpace c = true)
    (hiban : iban ≠ some "") :
    generate_id d amount iban name desc = generate_id d amount iban name desc ∧
    generate_id d amount (padOpt w1 iban w2) (padOpt w3 name w4) (padOpt w5 desc w6) =
      generate_id d amount iban name desc := by
  refine ⟨rfl, ?_⟩
  unfold generate_id
  apply congrArg sha256hex
  apply congrArg utf8Encode
  unfold data_to_hash
  rw [counterparty_pad w1 w2 w3 w4 iban name h1 h2 h3 h4 hiban,
    descPart_pad w5 w6 desc h5 h6]

/-- C5, counterexample to the claim as stated: padding the empty-string IBAN
field with a single space changes the digest when a counterparty name is
present, because the whitespace-padded IBAN becomes truthy and replaces the
name in the hashed string. -/
theorem generate_id_pad_cex :
    generate_id ⟨2024, 1, 1⟩ 1050 (padOpt " " (some "") "") (some "Foo") (some "x") ≠
      generate_id ⟨2024, 1, 1⟩ 1050 (some "") (some "Foo") (some "x") := by
  decide

/-- Witness for the amended C5 at concrete inputs. -/
theorem generate_id_det_pad_witness :
    (some "NL01RABO0123456789" : Option String) ≠ some "" ∧
    (generate_id ⟨2024, 1, 1⟩ 1050 (some "NL01RABO0123456789") (some "Test Payee")
        (some "Test Description") =
      generate_id ⟨2024, 1, 1⟩ 1050 (some "NL01RABO0123456789") (some "Test Payee")
        (some "Test Description") ∧
    generate_id ⟨2024, 1, 1⟩ 1050
        (padOpt " " (some "NL01RABO0123456789") " ") (padOpt "" (some "Test Payee") " ")
        (padOpt " " (some "Test Description") "") =
      generate_id ⟨2024, 1, 1⟩ 1050 (some "NL01RABO0123456789") (some "Test Payee")
        (some "Test Description")) :=
  ⟨by decide,
   generate_id_det_pad ⟨2024, 1, 1⟩ 1050 (some "NL01RABO0123456789")
     (some "Test Payee") (some "Test Description") " " " " "" " " " " ""
     (by decide) (by decide) (by decide) (by decide) (by decide) (by decide)
     (by decide)⟩

/-! ## Injectivity of the pre-hash string (claim C6) -/

theorem digitChar_inj_lt : ∀ a < 10, ∀ b < 10, Nat.digitChar a = Nat.digitChar b → a = b := by
  decide

theorem digitChar_toNat : ∀ a < 10, (Nat.digitChar a).toNat = 48 + a := by
  decide

theorem pad4_inj {a b : Nat} (ha : a ≤ 9999) (hb : b ≤ 9999) (h : pad4 a = pad4 b) :
    a = b := by
  simp only [pad4, List.cons.injEq, and_true] at h
  obtain ⟨e1, e2, e3, e4⟩ := h
  have d1 := digitChar_inj_lt _ (Nat.mod_lt _ (by omega)) _ (Nat.mod_lt _ (by omega)) e1
  have d2 := digitChar_inj_lt _ (Nat.mod_lt _ (by omega)) _ (Nat.mod_lt _ (by omega)) e2
  have d3 := digitChar_inj_lt _ (Nat.mod_lt _ (by omega)) _ (Nat.mod_lt _ (by omega)) e3
  have d4 := digitChar_inj_lt _ (Nat.mod_lt _ (by omega)) _ (Nat.mod_lt _ (by omega)) e4
  omega

theorem pad2_inj {a b : Nat} (ha : a ≤ 99) (hb : b ≤ 99) (h : pad2 a = pad2 b) :
    a = b := by
  simp only [pad2, List.cons.injEq, and_true] at h
  obtain ⟨e1, e2⟩ := h
  have d1 := digitChar_inj_lt _ (Nat.mod_lt _ (by omega)) _ (Nat.mod_lt _ (by omega)) e1
  have d2 := digitChar_inj_lt _ (Nat.mod_lt _ (by omega)) _ (Nat.mod_lt _ (by omega)) e2
  omega

theorem pad4_length (a : Nat) : (pad4 a).length = 4 := rfl

theorem isoformat_length (d : Pydate) : (isoformat d).data.length = 10 := by
  simp [isoformat, pad4, pad2]

theorem isoformat_inj {d d' : Pydate}
    (hy : d.year ≤ 9999) (hy' : d'.year ≤ 9999)
    (hm : d.month ≤ 99) (hm' : d'.month ≤ 99)
    (hd : d.day ≤ 99) (hd' : d'.day ≤ 99)
    (h : isoformat d = isoformat d') : d = d' := by
  have hdat : (isoformat d).data = (isoformat d').data := congrArg String.data h
  simp only [isoformat, pad4, pad2, List.cons_append, List.nil_append,
    List.cons.injEq, and_true] at hdat
  obtain ⟨e1, e2, e3, e4, _, e5, e6, _, e7, e8⟩ := hdat
  have d1 := digitChar_inj_lt _ (Nat.mod_lt _ (by omega)) _ (Nat.mod_lt _ (by omega)) e1
  have d2 := digitChar_inj_lt _ (Nat.mod_lt _ (by omega)) _ (Nat.mod_lt _ (by omega)) e2
  have d3 := digitChar_inj_lt _ (Nat.mod_lt _ (by omega)) _ (Nat.mod_lt _ (by omega)) e3
  have d4 := digitChar_inj_lt _ (Nat.mod_lt _ (by omega)) _ (Nat.mod_lt _ (by omega)) e4
  have d5 := digitChar_inj_lt _ (Nat.mod_lt _ (by omega)) _ (Nat.mod_lt _ (by omega)) e5
  have d6 := digitChar_inj_lt _ (Nat.mod_lt _ (by omega)) _ (Nat.mod_lt _ (by omega)) e6
  have d7 := digitChar_inj_lt _ (Nat.mod_lt _ (by omega)) _ (Nat.mod_lt _ (by omega)) e7
  have d8 := digitChar_inj_lt _ (Nat.mod_lt _ (by omega)) _ (Nat.mod_lt _ (by omega)) e8
  cases d
  cases d'
  simp_all
  omega

/-- Decimal decoding, inverse of `natDigitsGo` on its digit strings. -/
def decDigits (l : List Char) : Nat :=
  l.foldl (fun acc c => acc * 10 + (c.toNat - 48)) 0

theorem natDigitsGo_decode : ∀ fuel n, n < fuel → decDigits (natDigitsGo fuel n) = n := by
  intro fuel
  induction fuel with
  | zero => intro n h; omega
  | succ fuel ih =>
    intro n h
    by_cases h10 : n < 10
    · rw [natDigitsGo, if_pos h10]
      have := digitChar_toNat n h10
      simp [decDigits, this]
    · rw [natDigitsGo, if_neg h10]
      have hrec := ih (n / 10) (by omega)
      unfold decDigits at hrec ⊢
      rw [List.foldl_append, hrec]
      have := digitChar_toNat (n % 10) (Nat.mod_lt _ (by omega))
      simp [this]
      omega

theorem natRepr_inj {m n : Nat} (h : natRepr m = natRepr n) : m = n := by
  unfold natRepr at h
  have := congrArg decDigits h
  rwa [natDigitsGo_decode (m + 1) m (by omega),
    natDigitsGo_decode (n + 1) n (by omega)] at this

theorem amountStr_inj {a b : Nat} (h : amountStr a = amountStr b) : a = b := by
  have hdat : (amountStr a).data = (amountStr b).data := congrArg String.data h
  simp only [amountStr] at hdat
  have h1 := List.append_inj' hdat (by simp [pad2])
  have h2 := natRepr_inj h1.1
  have h3 := List.cons_injective h1.2
  have h4 := pad2_inj (a := a % 100) (b := b % 100) (by omega) (by omega) h3
  omega

theorem data_to_hash_data (d : Pydate) (a : Nat) (i n x : Option String) :
    (data_to_hash d a i n x).data =
      (isoformat d).data ++ ((amountStr a).data ++
        ((pyStrip (counterpartyId i n)).data ++ (descPart x).data)) := by
  simp [data_to_hash, String.data_append]

/-- C6: the separator-free `data_to_hash` concatenation hashed by
`generate_id` is injective in each argument with the other three fixed:
changing only the date, only the quantized amount, only the trimmed
counterparty identity or only the trimmed description changes the hashed
string (this is the equivalence the claim itself states; collision freeness
of SHA-256 itself is a cryptographic assumption, not a provable fact). -/
theorem data_to_hash_inj (d d' : Pydate) (a a' : Nat) (i i' n n' x x' : Option String)
    (hy : d.year ≤ 9999) (hy' : d'.year ≤ 9999)
    (hm : d.month ≤ 99) (hm' : d'.month ≤ 99)
    (hd : d.day ≤ 99) (hd' : d'.day ≤ 99) :
    (data_to_hash d a i n x = data_to_hash d' a i n x → d = d') ∧
    (data_to_hash d a i n x = data_to_hash d a' i n x → a = a') ∧
    (data_to_hash d a i n x = data_to_hash d a i' n' x →
      pyStrip (counterpartyId i n) = pyStrip (counterpartyId i' n')) ∧
    (data_to_hash d a i n x = data_to_hash d a i n x' → descPart x = descPart x') := by
  refine ⟨?_, ?_, ?_, ?_⟩
  · intro h
    have hdat := congrArg String.data h
    rw [data_to_hash_data, data_to_hash_data] at hdat
    have h1 := List.append_inj hdat (by rw [isoformat_length, isoformat_length])
    exact isoformat_inj hy hy' hm hm' hd hd' (String.ext h1.1)
  · intro h
    have hdat := congrArg String.data h
    rw [data_to_hash_data, data_to_hash_data] at hdat
    have h1 := List.append_cancel_left hdat
    rw [← List.append_assoc, ← List.append_assoc] at h1
    have h2 := List.append_cancel_right h1
    have h3 := List.append_cancel_right h2
    exact amountStr_inj (String.ext h3)
  · intro h
    have hdat := congrArg String.data h
    rw [data_to_hash_data, data_to_hash_data] at hdat
    have h1 := List.append_cancel_left (List.append_cancel_left hdat)
    have h2 := List.append_cancel_right h1
    exact String.ext h2
  · intro h
    have hdat := congrArg String.data h
    rw [data_to_hash_data, data_to_hash_data] at hdat
    have h1 := List.append_cancel_left
      (List.append_cancel_left (List.append_cancel_left hdat))
    exact String.ext h1

/-- Witness for C6 at concrete inputs. -/
theorem data_to_hash_inj_witness :
    (2024 ≤ 9999 ∧ 1 ≤ 99) ∧
    ((data_to_hash ⟨2024, 1, 1⟩ 1050 (some "NL66INGB0001234567") (some "Albert Heijn")
        (some "boodschappen") =
      data_to_hash ⟨2024, 1, 2⟩ 1050 (some "NL66INGB0001234567") (some "Albert Heijn")
        (some "boodschappen") → (⟨2024, 1, 1⟩ : Pydate) = ⟨2024, 1, 2⟩) ∧
    (data_to_hash ⟨2024, 1, 1⟩ 1050 (some "NL66INGB0001234567") (some "Albert Heijn")
        (some "boodschappen") =
      data_to_hash ⟨2024, 1, 1⟩ 1060 (some "NL66INGB0001234567") (some "Albert Heijn")
        (some "boodschappen") → 1050 = 1060) ∧
    (data_to_hash ⟨2024, 1, 1⟩ 1050 (some "NL66INGB0001234567") (some "Albert Heijn")
        (some "boodschappen") =
      data_to_hash ⟨2024, 1, 1⟩ 1050 (some "NL66INGB0001234568") (some "Albert Heijn")
        (some "boodschappen") →
      pyStrip (counterpartyId (some "NL66INGB0001234567") (some "Albert Heijn")) =
        pyStrip (counterpartyId (some "NL66INGB0001234568") (some "Albert Heijn"))) ∧
    (data_to_hash ⟨2024, 1, 1⟩ 1050 (some "NL66INGB0001234567") (some "Albert Heijn")
        (some "boodschappen") =
      data_to_hash ⟨2024, 1, 1⟩ 1050 (some "NL66INGB0001234567") (some "Albert Heijn")
        (some "huur") → descPart (some "boodschappen") = descPart (some "huur"))) :=
  ⟨by decide,
   data_to_hash_inj ⟨2024, 1, 1⟩ ⟨2024, 1, 2⟩ 1050 1060
     (some "NL66INGB0001234567") (some "NL66INGB0001234568")
     (some "Albert Heijn") (some "Albert Heijn")
     (some "boodschappen") (some "huur")
     (by decide) (by decide) (by decide) (by decide) (by decide) (by decide)⟩

/-! ## Data model (models.py) and rule engine (core.py)

SQL rows become structures; the record store (one SQLAlchemy session over
one database) becomes a `DB` of lists.  The source mutates fetched ORM
objects in place and commits once: a successful commit is the pointwise
update of the affected rows, a failed commit rolls the session back, which
leaves the store unchanged. -/

/-- Row of the `subcategories` table. -/
structure Subcategory where
  id : Int
  name : String
  category_id : Int
deriving DecidableEq

/-- Row of the `rules` table; `type` is a plain string column. -/
structure Rule where
  id : Int
  type : String
  pattern : String
  priority : Int
  confidence_base : Int
  subcategory_id : Int
deriving DecidableEq

/-- The `mutation_type` enum of schemas.py. -/
inductive MutationType
  | debit
  | credit
deriving DecidableEq

/-- Row of the `transactions` table. -/
structure Transaction where
  id : String
  account_id : String
  transaction_date : Pydate
  amount : Nat
  currency : String
  counterparty_name : Option String
  counterparty_iban : Option String
  description_raw : Option String
  mutation_type : MutationType
  bank_source : String
  subcategory_id : Option Int
deriving DecidableEq

/-- Modelled from the spec: `core.apply_rules` and the tests import
`RuleType` from `finanseer.schemas`, but the provided schemas.py lacks its
definition; the spec defines the rule `type` enum as
iban, counterparty_name, description_contains. -/
inductive RuleType
  | IBAN
  | COUNTERPARTY_NAME
  | DESCRIPTION_CONTAINS

/-- The `.value` strings of the modelled `RuleType`. -/
def RuleType.val : RuleType → String
  | .IBAN => "iban"
  | .COUNTERPARTY_NAME => "counterparty_name"
  | .DESCRIPTION_CONTAINS => "description_contains"

/-- The record store visible to core.py. -/
structure DB where
  transactions : List Transaction
  rules : List Rule
  subcategories : List Subcategory
deriving DecidableEq

/-- Does the needle occur as a leading block of the haystack. -/
def startsWithChars : List Char → List Char → Bool
  | [], _ => true
  | _ :: _, [] => false
  | a :: as, b :: bs => a == b && startsWithChars as bs

/-- Python `needle in hay` on character lists: substring containment; the
empty needle is contained in everything. -/
def containsSub (needle : List Char) : List Char → Bool
  | [] => needle.isEmpty
  | c :: rest => startsWithChars needle (c :: rest) || containsSub needle rest

/-- Python `needle in hay` on strings. -/
def pyInStr (needle hay : String) : Bool := containsSub needle.data hay.data

/-- Python truthiness of an optional string: `None` and `""` are falsy. -/
def truthyOpt (x : Option String) : Bool :=
  match x with
  | none => false
  | some s => !(s == "")

/-- The per-rule match test of the `apply_rules` loop body (the
`if`, `elif`, `elif` dispatch chain of core.py lines 186 to 195). -/
def ruleMatches (r : Rule) (t : Transaction) : Bool :=
  if r.type == RuleType.IBAN.val && t.counterparty_iban == some r.pattern then true
  else if r.type == RuleType.COUNTERPARTY_NAME.val && truthyOpt t.counterparty_name &&
      pyInStr (pyLower r.pattern) (pyLower (t.counterparty_name.getD "")) then true
  else if r.type == RuleType.DESCRIPTION_CONTAINS.val && truthyOpt t.description_raw &&
      pyInStr (pyLower r.pattern) (normalize_description (t.description_raw.getD "")) then
    true
  else false

/-- The inner `for rule in rules` loop with its `break`: the first matching
rule wins and evaluation stops for this transaction. -/
def firstMatchingRule : List Rule → Transaction → Option Rule
  | [], _ => none
  | r :: rest, t => if ruleMatches r t then some r else firstMatchingRule rest t

/-- The in-place mutation `t.subcategory_id = rule.subcategory_id` applied
on a match, nothing otherwise. -/
def categorizeOne (rules : List Rule) (t : Transaction) : Transaction :=
  match firstMatchingRule rules t with
  | some r => { t with subcategory_id := some r.subcategory_id }
  | none => t

/-- The `categorized_count` accumulated by the outer loop. -/
def passCount (rules : List Rule) : List Transaction → Nat
  | [] => 0
  | t :: rest =>
    (if (firstMatchingRule rules t).isSome then 1 else 0) + passCount rules rest

/-- Rules ordered by ascending priority. -/
def ruleLe (r1 r2 : Rule) : Prop := r1.priority ≤ r2.priority

instance : DecidableRel ruleLe := fun a b => Int.decLe a.priority b.priority

instance : IsTotal Rule ruleLe := ⟨fun a b => Int.le_total a.priority b.priority⟩

instance : IsTrans Rule ruleLe := ⟨fun _ _ _ => Int.le_trans⟩

/-- Ordinal of a date, monotone in (year, month, day) for calendar dates:
the ORDER BY key. -/
def dateVal (d : Pydate) : Nat := d.year * 10000 + d.month * 100 + d.day

/-- Transactions ordered by descending date. -/
def dateGe (t u : Transaction) : Prop :=
  dateVal u.transaction_date ≤ dateVal t.transaction_date

instance : DecidableRel dateGe :=
  fun a b => Nat.decLe (dateVal b.transaction_date) (dateVal a.transaction_date)

/-- `core.get_uncategorized_transactions` with the default `sort_by`
("date"): rows with NULL `subcategory_id`, ordered by date descending (a
stable sort models the ORDER BY, which only permutes the result). -/
def get_uncategorized_transactions (db : DB) : List Transaction :=
  List.insertionSort dateGe (db.transactions.filter (fun t => t.subcategory_id.isNone))

/-- The rule fetch of `apply_rules`: `ORDER BY priority` ascending, stable. -/
def sortedRules (db : DB) : List Rule := List.insertionSort ruleLe db.rules

/-- `core.apply_rules`.  The source returns the evaluated count in every
exit path; a dry run never touches the rows; a live run mutates each
fetched (hence uncategorized) row in place through `categorizeOne` and
commits once, and a failing commit is caught, rolled back and logged, so
the store is unchanged while the count is still returned. -/
def apply_rules (db : DB) (dry_run commitOk : Bool) : Nat × DB :=
  if (sortedRules db).isEmpty then (0, db)
  else if (get_uncategorized_transactions db).isEmpty then (0, db)
  else if dry_run then
    (passCount (sortedRules db) (get_uncategorized_transactions db), db)
  else if commitOk then
    (passCount (sortedRules db) (get_uncategorized_transactions db),
     { db with transactions := db.transactions.map (fun t => if t.subcategory_id.isNone then categorizeOne (sortedRules db) t else t) })
  else
    (passCount (sortedRules db) (get_uncategorized_transactions db), db)

/-- `core.set_category_for_transactions`: aborts with no mutation when the
subcategory id resolves to nothing (only a log line is emitted, nothing is
raised); otherwise updates the listed rows and commits once, rolling back
on failure. -/
def set_category_for_transactions (db : DB) (transaction_ids : List String)
    (subcategory_id : Int) (commitOk : Bool) : DB :=
  match db.subcategories.find? (fun s => s.id == subcategory_id) with
  | none => db
  | some _ =>
    if commitOk then
      { db with transactions := db.transactions.map (fun t => if transaction_ids.contains t.id then { t with subcategory_id := some subcategory_id } else t) }
    else db

/-- `core.add_rule`: aborts with no mutation when the subcategory id
resolves to nothing; otherwise inserts the new rule (the primary key is
auto-assigned and unused by the engine, modelled as 0) and commits once,
rolling back on failure. -/
def add_rule (db : DB) (type pattern : String) (subcategory_id : Int)
    (priority : Int) (commitOk : Bool) : DB :=
  match db.subcategories.find? (fun s => s.id == subcategory_id) with
  | none => db
  | some _ =>
    if commitOk then
      { db with rules := db.rules ++
          [{ id := 0, type := type, pattern := pattern, priority := priority,
             confidence_base := 100, subcategory_id := subcategory_id }] }
    else db

/-! ## Rule engine lemmas and claims C1, C2, C3, C9 -/

theorem firstMatchingRule_mem :
    ∀ {rules : List Rule} {t : Transaction} {r : Rule},
      firstMatchingRule rules t = some r → r ∈ rules ∧ ruleMatches r t = true := by
  intro rules
  induction rules with
  | nil => intro t r h; cases h
  | cons a rest ih =>
    intro t r h
    rw [firstMatchingRule] at h
    by_cases ha : ruleMatches a t = true
    · rw [if_pos ha] at h
      cases h
      exact ⟨List.mem_cons_self _ _, ha⟩
    · rw [if_neg ha] at h
      have := ih h
      exact ⟨List.mem_cons_of_mem _ this.1, this.2⟩

theorem firstMatchingRule_none_iff :
    ∀ {rules : List Rule} {t : Transaction},
      firstMatchingRule rules t = none ↔ ∀ r ∈ rules, ruleMatches r t = false := by
  intro rules
  induction rules with
  | nil => intro t; simp [firstMatchingRule]
  | cons a rest ih =>
    intro t
    rw [firstMatchingRule]
    by_cases ha : ruleMatches a t = true
    · simp [if_pos ha, ha]
    · simp only [if_neg ha, ih]
      constructor
      · intro h r hr
        rcases List.mem_cons.mp hr with h1 | h1
        · subst h1; exact Bool.eq_false_iff.mpr ha
        · exact h r h1
      · intro h r hr
        exact h r (List.mem_cons_of_mem _ hr)

/-- On a priority-sorted rule list, the first matching rule has the least
priority among all matching rules. -/
theorem firstMatchingRule_min :
    ∀ {rules : List Rule} {t : Transaction} {r : Rule},
      List.Sorted ruleLe rules → firstMatchingRule rules t = some r →
      ∀ r' ∈ rules, ruleMatches r' t = true → r.priority ≤ r'.priority := by
  intro rules
  induction rules with
  | nil => intro t r _ h; cases h
  | cons a rest ih =>
    intro t r hs h r' hr' hm'
    rw [firstMatchingRule] at h
    by_cases ha : ruleMatches a t = true
    · rw [if_pos ha] at h
      cases h
      rcases List.mem_cons.mp hr' with h1 | h1
      · subst h1; exact le_refl _
      · exact List.rel_of_sorted_cons hs r' h1
    · rw [if_neg ha] at h
      rcases List.mem_cons.mp hr' with h1 | h1
      · subst h1; exact absurd hm' ha
      · exact ih hs.of_cons h r' h1 hm'

theorem passCount_eq_zero {rules : List Rule} :
    ∀ {l : List Transaction},
      passCount rules l = 0 ↔ ∀ t ∈ l, firstMatchingRule rules t = none := by
  intro l
  induction l with
  | nil => simp [passCount]
  | cons t rest ih =>
    rw [passCount]
    cases hfm : firstMatchingRule rules t with
    | some r =>
      simp only [hfm, Option.isSome_some, if_pos]
      constructor
      · intro h; omega
      · intro h
        have := h t (List.mem_cons_self _ _)
        rw [hfm] at this
        cases this
    | none =>
      simp only [hfm, Option.isSome_none, Bool.false_eq_true, if_false, Nat.zero_add, ih]
      constructor
      · intro h r hr
        rcases List.mem_cons.mp hr with h1 | h1
        · subst h1; exact hfm
        · exact h r h1
      · intro h r hr
        exact h r (List.mem_cons_of_mem _ hr)

theorem mem_get_uncategorized {db : DB} {t : Transaction} :
    t ∈ get_uncategorized_transactions db ↔
      t ∈ db.transactions ∧ t.subcategory_id.isNone = true := by
  unfold get_uncategorized_transactions
  rw [(List.perm_insertionSort dateGe _).mem_iff, List.mem_filter]

/-- C3: a dry run of `apply_rules` returns the same match count as a live
run on the same store, and leaves the store (hence every subcategory_id)
unchanged, persisting nothing. -/
theorem apply_rules_dry_run (db : DB) (c c' : Bool) :
    (apply_rules db true c).1 = (apply_rules db false c').1 ∧
    (apply_rules db true c).2 = db := by
  by_cases h1 : (sortedRules db).isEmpty = true
  · simp [apply_rules, h1]
  · by_cases h2 : (get_uncategorized_transactions db).isEmpty = true
    · simp [apply_rules, h1, h2]
    · cases c' <;> simp [apply_rules, h1, h2]

/-- C9: when the final commit of a live `apply_rules` run fails, the whole
batch is rolled back (the resulting store is the input store, no partial
write), the failure is swallowed, and the returned count equals the count a
successful run returns. -/
theorem apply_rules_rollback (db : DB) :
    (apply_rules db false false).1 = (apply_rules db false true).1 ∧
    (apply_rules db false false).2 = db := by
  by_cases h1 : (sortedRules db).isEmpty = true
  · simp [apply_rules, h1]
  · by_cases h2 : (get_uncategorized_transactions db).isEmpty = true
    · simp [apply_rules, h1, h2]
    · simp [apply_rules, h1, h2]

/-- When no fetched uncategorized transaction matches any rule, every exit
path of `apply_rules` returns count zero. -/
theorem apply_rules_fst_zero (db : DB) (d c : Bool)
    (h : ∀ u ∈ get_uncategorized_transactions db,
      firstMatchingRule (sortedRules db) u = none) :
    (apply_rules db d c).1 = 0 := by
  have hcount := passCount_eq_zero.mpr h
  unfold apply_rules
  split
  · rfl
  · split
    · rfl
    · split
      · simpa using hcount
      · split
        · simpa using hcount
        · simpa using hcount

/-- C2: after a live `apply_rules` run with a successful commit, a second
run on the resulting store with the same rules categorizes zero
transactions: every transaction matched by the first run now has a
non-null subcategory_id and is no longer fetched as uncategorized, and the
remaining uncategorized transactions match no rule. -/
theorem apply_rules_idem (db : DB) (d c : Bool) :
    (apply_rules (apply_rules db false true).2 d c).1 = 0 := by
  by_cases h1 : (sortedRules db).isEmpty = true
  · simp [apply_rules, h1]
  · by_cases h2 : (get_uncategorized_transactions db).isEmpty = true
    · simp [apply_rules, h1, h2]
    · have hdb2 : (apply_rules db false true).2 =
        { db with transactions := db.transactions.map (fun t => if t.subcategory_id.isNone then categorizeOne (sortedRules db) t else t) } := by
        unfold apply_rules
        rw [if_neg h1, if_neg h2]
        rfl
      have hzero : ∀ u ∈ get_uncategorized_transactions { db with transactions := db.transactions.map (fun t => if t.subcategory_id.isNone then categorizeOne (sortedRules db) t else t) }, firstMatchingRule (sortedRules db) u = none := by
        intro u hu
        have hu2 := mem_get_uncategorized.mp hu
        rcases List.mem_map.mp hu2.1 with ⟨t0, _, hmap⟩
        by_cases h0 : t0.subcategory_id.isNone = true
        · rw [if_pos h0] at hmap
          cases hfm : firstMatchingRule (sortedRules db) t0 with
          | some r =>
            have hus : u.subcategory_id = some r.subcategory_id := by
              rw [← hmap]
              simp [categorizeOne, hfm]
            rw [hus] at hu2
            simp at hu2
          | none =>
            have hut : u = t0 := by rw [← hmap]; simp [categorizeOne, hfm]
            rw [hut, hfm]
        · rw [if_neg h0] at hmap
          rw [← hmap] at hu2
          exact absurd hu2.2 h0
      rw [hdb2]
      exact apply_rules_fst_zero _ d c hzero

/-! ## Referential integrity (claim C8) and unknown rule types (claim C10) -/

/-- C8: an operation naming a subcategory id that resolves to no existing
subcategory aborts whole: `set_category_for_transactions` mutates no
transaction and `add_rule` creates no rule, and both merely log the
condition and return (both are total functions here: nothing is raised
past the boundary). -/
theorem missing_subcategory_no_mutation (db : DB) (ids : List String) (sid : Int)
    (ty pat : String) (prio : Int) (ck1 ck2 : Bool)
    (h : ∀ s ∈ db.subcategories, s.id ≠ sid) :
    set_category_for_transactions db ids sid ck1 = db ∧
    add_rule db ty pat sid prio ck2 = db := by
  have hf : db.subcategories.find? (fun s => s.id == sid) = none :=
    List.find?_eq_none.mpr (fun s hs => by simp [h s hs])
  constructor
  · unfold set_category_for_transactions
    rw [hf]
  · unfold add_rule
    rw [hf]

/-- Witness for C8: a store whose only subcategory has id 1, addressed with
id 2. -/
theorem missing_subcategory_no_mutation_witness :
    (∀ s ∈ (⟨[], [], [⟨1, "Rent", 1⟩]⟩ : DB).subcategories, s.id ≠ 2) ∧
    (set_category_for_transactions ⟨[], [], [⟨1, "Rent", 1⟩]⟩ ["tx1"] 2 true =
        ⟨[], [], [⟨1, "Rent", 1⟩]⟩ ∧
      add_rule ⟨[], [], [⟨1, "Rent", 1⟩]⟩ "iban" "NL66INGB0001234567" 2 100 true =
        ⟨[], [], [⟨1, "Rent", 1⟩]⟩) :=
  ⟨by decide,
   missing_subcategory_no_mutation ⟨[], [], [⟨1, "Rent", 1⟩]⟩ ["tx1"] 2
     "iban" "NL66INGB0001234567" 100 true true (by decide)⟩

/-- C10: a rule whose type string is none of the three recognized values
matches no transaction: the dispatch chain of `apply_rules` has no other
branch, so the rule is silently skipped for every transaction (skipping it
from the head of the rule list leaves the evaluation unchanged), and the
`Rule.type` column is a plain string accepting any value. -/
theorem unknown_rule_type_skipped (r : Rule) (t : Transaction) (rest : List Rule)
    (h1 : r.type ≠ "iban") (h2 : r.type ≠ "counterparty_name")
    (h3 : r.type ≠ "description_contains") :
    ruleMatches r t = false ∧
    firstMatchingRule (r :: rest) t = firstMatchingRule rest t := by
  have hm : ruleMatches r t = false := by
    unfold ruleMatches
    rw [if_neg (by simp [RuleType.val, h1]), if_neg (by simp [RuleType.val, h2]),
      if_neg (by simp [RuleType.val, h3])]
  exact ⟨hm, by rw [firstMatchingRule, if_neg (by simp [hm])]⟩

/-- Witness for C10: a rule with the unrecognized type string "regex". -/
theorem unknown_rule_type_skipped_witness :
    (("regex" : String) ≠ "iban" ∧ ("regex" : String) ≠ "counterparty_name" ∧
      ("regex" : String) ≠ "description_contains") ∧
    (ruleMatches ⟨1, "regex", "NL66", 10, 100, 1⟩
        ⟨"tx", "acct", ⟨2024, 1, 1⟩, 0, "EUR", some "NL66", some "NL66", some "NL66",
         .debit, "Rabobank", none⟩ = false ∧
      firstMatchingRule [⟨1, "regex", "NL66", 10, 100, 1⟩]
          ⟨"tx", "acct", ⟨2024, 1, 1⟩, 0, "EUR", some "NL66", some "NL66", some "NL66",
           .debit, "Rabobank", none⟩ =
        firstMatchingRule []
          ⟨"tx", "acct", ⟨2024, 1, 1⟩, 0, "EUR", some "NL66", some "NL66", some "NL66",
           .debit, "Rabobank", none⟩) :=
  ⟨⟨by decide, by decide, by decide⟩,
   unknown_rule_type_skipped ⟨1, "regex", "NL66", 10, 100, 1⟩
     ⟨"tx", "acct", ⟨2024, 1, 1⟩, 0, "EUR", some "NL66", some "NL66", some "NL66",
      .debit, "Rabobank", none⟩ [] (by decide) (by decide) (by decide)⟩

/-! ## The match predicate in full (claim C4) -/

theorem startsWithChars_iff :
    ∀ (ndl h : List Char), startsWithChars ndl h = true ↔ ∃ rest, h = ndl ++ rest := by
  intro ndl
  induction ndl with
  | nil => intro h; simp [startsWithChars]
  | cons a as ih =>
    intro h
    cases h with
    | nil =>
      simp only [startsWithChars]
      constructor
      · intro hfalse; cases hfalse
      · rintro ⟨rest, hrest⟩; cases hrest
    | cons b bs =>
      show (a == b && startsWithChars as bs) = true ↔ _
      simp only [Bool.and_eq_true, beq_iff_eq, ih bs]
      constructor
      · rintro ⟨hab, rest, hrest⟩
        exact ⟨rest, by rw [hab, hrest]; rfl⟩
      · rintro ⟨rest, hrest⟩
        injection hrest with hb hbs
        exact ⟨hb.symm, rest, hbs⟩

theorem containsSub_iff :
    ∀ (ndl h : List Char), containsSub ndl h = true ↔ ∃ pre post, h = pre ++ ndl ++ post := by
  intro ndl h
  induction h with
  | nil =>
    rw [containsSub]
    constructor
    · intro he
      refine ⟨[], [], ?_⟩
      rw [List.isEmpty_iff.mp he]
      rfl
    · rintro ⟨pre, post, hp⟩
      rcases List.append_eq_nil.mp (List.append_eq_nil.mp hp.symm).1 with ⟨_, h2⟩
      rw [List.isEmpty_iff, h2]
  | cons c rest ih =>
    rw [containsSub]
    simp only [Bool.or_eq_true, startsWithChars_iff, ih]
    constructor
    · rintro (⟨rest2, hr⟩ | ⟨pre, post, hp⟩)
      · exact ⟨[], rest2, by simpa using hr⟩
      · exact ⟨c :: pre, post, by rw [List.cons_append, List.cons_append, ← hp]⟩
    · rintro ⟨pre, post, hp⟩
      cases pre with
      | nil => exact Or.inl ⟨post, by simpa using hp⟩
      | cons p ps =>
        rw [List.cons_append, List.cons_append] at hp
        injection hp with hc hrest
        exact Or.inr ⟨ps, post, hrest⟩

theorem pyInStr_iff (needle hay : String) :
    pyInStr needle hay = true ↔ ∃ pre post, hay.data = pre ++ needle.data ++ post :=
  containsSub_iff needle.data hay.data

theorem truthyOpt_iff (x : Option String) :
    truthyOpt x = true ↔ ∃ s, x = some s ∧ s ≠ "" := by
  cases x with
  | none => simp [truthyOpt]
  | some s => simp [truthyOpt]

/-- The match predicate exactly as claim C4 words it, reading "absent" as
`None`: equality for iban rules, case-insensitive containment for name
rules, containment in the normalized text for description rules. -/
def ruleMatchClaim (r : Rule) (t : Transaction) : Prop :=
  (r.type = "iban" ∧ t.counterparty_iban = some r.pattern) ∨
  (r.type = "counterparty_name" ∧ ∃ s, t.counterparty_name = some s ∧
    ∃ pre post, (pyLower s).data = pre ++ (pyLower r.pattern).data ++ post) ∨
  (r.type = "description_contains" ∧ ∃ s, t.description_raw = some s ∧
    ∃ pre post, (normalize_description s).data = pre ++ (pyLower r.pattern).data ++ post)

/-- The amended predicate: as `ruleMatchClaim`, except that a
present-but-empty counterparty name or description also fails to match
(Python truthiness gates those two branches, but not the iban branch). -/
def ruleMatchSpec (r : Rule) (t : Transaction) : Prop :=
  (r.type = "iban" ∧ t.counterparty_iban = some r.pattern) ∨
  (r.type = "counterparty_name" ∧ ∃ s, t.counterparty_name = some s ∧ s ≠ "" ∧
    ∃ pre post, (pyLower s).data = pre ++ (pyLower r.pattern).data ++ post) ∨
  (r.type = "description_contains" ∧ ∃ s, t.description_raw = some s ∧ s ≠ "" ∧
    ∃ pre post, (normalize_description s).data = pre ++ (pyLower r.pattern).data ++ post)

/-- C4, amended: the dispatch chain of `apply_rules` matches exactly per
`ruleMatchSpec`: exact case-sensitive equality with the counterparty IBAN
for iban rules; case-insensitive substring containment in the counterparty
name for name rules; lowercased-pattern containment in the normalizer
output for description rules; absent fields never match, where for the
name and description branches "absent" must be read as None or empty. -/
theorem rule_match_characterization (r : Rule) (t : Transaction) :
    ruleMatches r t = true ↔ ruleMatchSpec r t := by
  unfold ruleMatches
  split_ifs with hc1 hc2 hc3
  · simp only [Bool.and_eq_true, beq_iff_eq, RuleType.val] at hc1
    constructor
    · intro _
      exact Or.inl ⟨hc1.1, hc1.2⟩
    · intro _
      rfl
  · simp only [Bool.and_eq_true, beq_iff_eq, truthyOpt_iff, RuleType.val] at hc2
    obtain ⟨⟨hty, s, hname, hs⟩, hin⟩ := hc2
    constructor
    · intro _
      refine Or.inr (Or.inl ⟨hty, s, hname, hs, ?_⟩)
      have := (pyInStr_iff _ _).mp hin
      rwa [hname] at this
    · intro _
      rfl
  · simp only [Bool.and_eq_true, beq_iff_eq, truthyOpt_iff, RuleType.val] at hc3
    obtain ⟨⟨hty, s, hdesc, hs⟩, hin⟩ := hc3
    constructor
    · intro _
      refine Or.inr (Or.inr ⟨hty, s, hdesc, hs, ?_⟩)
      have := (pyInStr_iff _ _).mp hin
      rwa [hdesc] at this
    · intro _
      rfl
  · constructor
    · intro hfalse
      cases hfalse
    · intro hspec
      exfalso
      rcases hspec with ⟨hty, hiban⟩ | ⟨hty, s, hname, hs, pre, post, hin⟩ |
        ⟨hty, s, hdesc, hs, pre, post, hin⟩
      · exact hc1 (by simp [Bool.and_eq_true, beq_iff_eq, RuleType.val, hty, hiban])
      · refine hc2 ?_
        simp only [Bool.and_eq_true, beq_iff_eq, truthyOpt_iff, RuleType.val]
        refine ⟨⟨hty, s, hname, hs⟩, ?_⟩
        apply (pyInStr_iff _ _).mpr
        rw [hname]
        exact ⟨pre, post, hin⟩
      · refine hc3 ?_
        simp only [Bool.and_eq_true, beq_iff_eq, truthyOpt_iff, RuleType.val]
        refine ⟨⟨hty, s, hdesc, hs⟩, ?_⟩
        apply (pyInStr_iff _ _).mpr
        rw [hdesc]
        exact ⟨pre, post, hin⟩

/-- C4, counterexample to the claim as stated (absent read as None): a name
rule with the empty pattern against a present-but-empty counterparty name.
The empty pattern is contained in the empty name, so the claim predicts a
match, but the Python truthiness gate makes the code reject it. -/
theorem rule_match_claim_cex :
    ruleMatchClaim ⟨1, "counterparty_name", "", 10, 100, 1⟩
      ⟨"tx", "acct", ⟨2024, 1, 1⟩, 0, "EUR", some "", none, none, .debit, "Rabobank", none⟩ ∧
    ruleMatches ⟨1, "counterparty_name", "", 10, 100, 1⟩
      ⟨"tx", "acct", ⟨2024, 1, 1⟩, 0, "EUR", some "", none, none, .debit, "Rabobank", none⟩ =
      false := by
  constructor
  · exact Or.inr (Or.inl ⟨rfl, "", rfl, [], [], rfl⟩)
  · decide

/-! ## Priority order and first-match semantics (claim C1) -/

/-- C1: `apply_rules` evaluates the rules in ascending priority order and
the first match wins.  For an uncategorized transaction, the engine applies
`firstMatchingRule` over the priority-sorted rule list; the rule it applies
has minimal priority among all matching rules; and with exactly two rules
both matching and carrying different priorities, the lower-priority-number
rule determines the assigned subcategory_id, as witnessed in the committed
store. -/
theorem apply_rules_priority (db : DB) (t : Transaction) (r1 r2 : Rule)
    (ht : t ∈ db.transactions) (hunc : t.subcategory_id = none)
    (hrules : db.rules = [r1, r2] ∨ db.rules = [r2, r1])
    (hm1 : ruleMatches r1 t = true) (hm2 : ruleMatches r2 t = true)
    (hp : r1.priority < r2.priority) :
    firstMatchingRule (sortedRules db) t = some r1 ∧
    (∀ rm, firstMatchingRule (sortedRules db) t = some rm →
      ∀ r ∈ db.rules, ruleMatches r t = true → rm.priority ≤ r.priority) ∧
    categorizeOne (sortedRules db) t = { t with subcategory_id := some r1.subcategory_id } ∧
    { t with subcategory_id := some r1.subcategory_id } ∈
      (apply_rules db false true).2.transactions := by
  have hle : ruleLe r1 r2 := le_of_lt hp
  have hnle : ¬ ruleLe r2 r1 := by
    unfold ruleLe
    omega
  have hsorted : sortedRules db = [r1, r2] := by
    rcases hrules with h | h <;> rw [sortedRules, h]
    · show List.orderedInsert ruleLe r1 (List.orderedInsert ruleLe r2 []) = [r1, r2]
      rw [List.orderedInsert, List.orderedInsert, if_pos hle]
    · show List.orderedInsert ruleLe r2 (List.orderedInsert ruleLe r1 []) = [r1, r2]
      rw [List.orderedInsert, List.orderedInsert, if_neg hnle, List.orderedInsert]
  have hfirst : firstMatchingRule (sortedRules db) t = some r1 := by
    rw [hsorted, firstMatchingRule, if_pos hm1]
  refine ⟨hfirst, ?_, ?_, ?_⟩
  · intro rm hrm r hr hmr
    rw [hfirst] at hrm
    cases hrm
    exact firstMatchingRule_min (List.sorted_insertionSort ruleLe db.rules) hfirst r
      (((List.perm_insertionSort ruleLe db.rules).mem_iff).mpr hr) hmr
  · simp [categorizeOne, hfirst]
  · have hne1 : ¬ (sortedRules db).isEmpty = true := by
      rw [hsorted]
      simp
    have htu : t ∈ get_uncategorized_transactions db :=
      mem_get_uncategorized.mpr ⟨ht, by rw [hunc]; rfl⟩
    have hne2 : ¬ (get_uncategorized_transactions db).isEmpty = true := by
      intro he
      rw [List.isEmpty_iff.mp he] at htu
      cases htu
    have happ : (apply_rules db false true).2 = { db with transactions := db.transactions.map (fun u => if u.subcategory_id.isNone then categorizeOne (sortedRules db) u else u) } := by
      unfold apply_rules
      rw [if_neg hne1, if_neg hne2]
      rfl
    rw [happ]
    have himg : (fun u => if u.subcategory_id.isNone then categorizeOne (sortedRules db) u else u) t = { t with subcategory_id := some r1.subcategory_id } := by
      show (if t.subcategory_id.isNone = true then categorizeOne (sortedRules db) t else t) =
        { t with subcategory_id := some r1.subcategory_id }
      rw [if_pos (by rw [hunc]; rfl)]
      simp [categorizeOne, hfirst]
    have hmem := List.mem_map_of_mem
      (fun u => if u.subcategory_id.isNone then categorizeOne (sortedRules db) u else u) ht
    rw [himg] at hmem
    exact hmem

/-- Witness for C1: spec scenario 4, two name rules for "albert heijn" with
priorities 10 (to subcategory 2) and 100 (to subcategory 1). -/
theorem apply_rules_priority_witness :
    ((⟨"tx1", "NL00", ⟨2024, 1, 1⟩, 1000, "EUR", some "Albert Heijn", none, none, .debit,
        "Rabobank", none⟩ : Transaction) ∈
      (⟨[⟨"tx1", "NL00", ⟨2024, 1, 1⟩, 1000, "EUR", some "Albert Heijn", none, none, .debit,
          "Rabobank", none⟩],
        [⟨1, "counterparty_name", "albert heijn", 100, 100, 1⟩,
         ⟨2, "counterparty_name", "albert heijn", 10, 100, 2⟩],
        [⟨1, "Rent", 1⟩, ⟨2, "Groceries", 1⟩]⟩ : DB).transactions ∧
     (⟨2, "counterparty_name", "albert heijn", 10, 100, 2⟩ : Rule).priority <
       (⟨1, "counterparty_name", "albert heijn", 100, 100, 1⟩ : Rule).priority) ∧
    firstMatchingRule
        (sortedRules ⟨[⟨"tx1", "NL00", ⟨2024, 1, 1⟩, 1000, "EUR", some "Albert Heijn",
            none, none, .debit, "Rabobank", none⟩],
          [⟨1, "counterparty_name", "albert heijn", 100, 100, 1⟩,
           ⟨2, "counterparty_name", "albert heijn", 10, 100, 2⟩],
          [⟨1, "Rent", 1⟩, ⟨2, "Groceries", 1⟩]⟩)
        ⟨"tx1", "NL00", ⟨2024, 1, 1⟩, 1000, "EUR", some "Albert Heijn", none, none, .debit,
          "Rabobank", none⟩ =
      some ⟨2, "counterparty_name", "albert heijn", 10, 100, 2⟩ := by
  refine ⟨⟨by decide, by decide⟩, ?_⟩
  exact (apply_rules_priority
    ⟨[⟨"tx1", "NL00", ⟨2024, 1, 1⟩, 1000, "EUR", some "Albert Heijn", none, none, .debit,
        "Rabobank", none⟩],
      [⟨1, "counterparty_name", "albert heijn", 100, 100, 1⟩,
       ⟨2, "counterparty_name", "albert heijn", 10, 100, 2⟩],
      [⟨1, "Rent", 1⟩, ⟨2, "Groceries", 1⟩]⟩
    ⟨"tx1", "NL00", ⟨2024, 1, 1⟩, 1000, "EUR", some "Albert Heijn", none, none, .debit,
      "Rabobank", none⟩
    ⟨2, "counterparty_name", "albert heijn", 10, 100, 2⟩
    ⟨1, "counterparty_name", "albert heijn", 100, 100, 1⟩
    (by decide) (by decide) (Or.inr rfl) (by decide) (by decide) (by decide)).1

end Finanseer
